import Mathlib

set_option maxRecDepth 16384

/-!
# Verification of the terminus term-resolution service

A shallow embedding of the `terminus` terminology API (Python/FastAPI) and
proofs about its behaviour.  The embedding covers:

* the two keyed stores (`terminusService`, `CandidateterminusService` in
  `services/terminus_service.py` and `services/candidate_terminus_service.py`),
  modelled as association lists keyed by the `term` column, with the
  serialisation of the `follow_ups` column to a JSON string;
* the candidate endpoints (`routers/candidate.py`): `create_candidate` and
  `validate_candidate` (promotion/rejection);
* the background resolution workflow
  (`_fetch_validate_and_store_definition` in `routers/definition.py`);
* the two-phase term extraction (`TermExtractionService.validate_terms` in
  `services/llm_service.py`) and the precompute endpoint
  (`routers/terms.py`).

External collaborators (Wikipedia, the LLM clients, database commit
success/failure) are modelled as oracle inputs describing the outcome of
each call; the Python control flow around those calls is translated
branch by branch.

String operations: Python `str.lower()` and `str.strip()` are modelled on
the basic-latin fragment (`Char.toLower` only maps `A`-`Z`;
`Char.isWhitespace` covers the ASCII whitespace Python strips).  The JSON
produced by `json.dumps` for the follow-up column is modelled by an
executable printer/parser pair for exactly the grammar `json.dumps` emits
for a list of three-string dictionaries (default separators, keys in
field order); the `\uXXXX` ASCII-escaping that `json.dumps` applies to
control and non-ASCII characters is not modelled - such characters are
carried literally, which keeps the codec a faithful partial inverse.
-/

/-- Python `str.lower()` on a character (basic latin fragment): this is
exactly `Char.toLower`. -/
abbrev pyLowerChar : Char → Char := Char.toLower

/-- Python `str.lower()` (basic latin fragment): lower-case every
character.  Every store operation applies this to its key argument
(`term.lower()` in both service classes). -/
def pyLower (s : String) : String := ⟨s.data.map pyLowerChar⟩

/-- Python `str.strip()` (ASCII whitespace): drop whitespace from both
ends.  Used by the routers (`term.strip().lower()`), not by the stores. -/
def pyStrip (s : String) : String :=
  ⟨(s.data.dropWhile Char.isWhitespace).reverse.dropWhile Char.isWhitespace |>.reverse⟩

/-- Python `str.startswith`. -/
def pyStartsWith (s pre : String) : Bool := pre.data.isPrefixOf s.data

/-- Python slicing `s[:n]` (by code point, as Python slices). -/
def pyTake (s : String) (n : Nat) : String := ⟨s.data.take n⟩

/-- Python `len` on a string (number of code points). -/
def pyLen (s : String) : Nat := s.data.length

/-- A follow-up triple (`schemas.FollowUp`). -/
structure FollowUp where
  term : String
  question : String
  definition : String
deriving DecidableEq, Repr

/-- `schemas.terminusAnswer`. -/
structure terminusAnswer where
  term : String
  definition : String
  follow_ups : List FollowUp
deriving DecidableEq, Repr

/-- `schemas.CandidateterminusAnswer`. -/
structure CandidateterminusAnswer where
  term : String
  definition : String
  follow_ups : List FollowUp
  status : String
deriving DecidableEq, Repr

/-! ## JSON codec for the `follow_ups` column

`_serialize_follow_ups` is `json.dumps` applied to the list of
field-order dictionaries produced by `FollowUp.model_dump()`; with the
default separators this emits
`[{"term": "..", "question": "..", "definition": ".."}, ..]`.
-/

/-- JSON string-escaping of one character as `json.dumps` emits it
(quote, backslash and the common control characters; `\uXXXX` escapes
are not modelled, see the file header). -/
def escapeChar (c : Char) : List Char :=
  if c = '"' then ['\\', '"']
  else if c = '\\' then ['\\', '\\']
  else if c = '\n' then ['\\', 'n']
  else if c = '\t' then ['\\', 't']
  else if c = '\r' then ['\\', 'r']
  else [c]

def escapeString (s : List Char) : List Char := s.flatMap escapeChar

/-- The serialised form of one follow-up dictionary. -/
def serializeFollowUp (f : FollowUp) : List Char :=
  "\x7b\"term\": \"".data ++ escapeString f.term.data
    ++ "\", \"question\": \"".data ++ escapeString f.question.data
    ++ "\", \"definition\": \"".data ++ escapeString f.definition.data
    ++ "\"\x7d".data

/-- Comma-separated item list, as `json.dumps` separates items. -/
def serializeItems : List FollowUp → List Char
  | [] => []
  | [f] => serializeFollowUp f
  | f :: rest => serializeFollowUp f ++ ", ".data ++ serializeItems rest

/-- `_serialize_follow_ups` (identical in both service classes):
`json.dumps` of the list of follow-up dictionaries. -/
def _serialize_follow_ups (follow_ups : List FollowUp) : String :=
  ⟨"[".data ++ serializeItems follow_ups ++ "]".data⟩

/-- Inverse of `escapeChar` on the escape marker that follows `\\`. -/
def unescapeChar (c : Char) : Option Char :=
  if c = '"' then some '"'
  else if c = '\\' then some '\\'
  else if c = 'n' then some '\n'
  else if c = 't' then some '\t'
  else if c = 'r' then some '\r'
  else none

/-- Parse one JSON string body up to (and consuming) the closing quote.
Returns the decoded characters and the remaining input. -/
def parseStringBody : List Char → Option (List Char × List Char)
  | [] => none
  | c :: rest =>
    if c = '"' then some ([], rest)
    else if c = '\\' then
      match rest with
      | [] => none
      | e :: rest2 => do
        let d ← unescapeChar e
        let (s, r) ← parseStringBody rest2
        some (d :: s, r)
    else do
      let (s, r) ← parseStringBody rest
      some (c :: s, r)

/-- Expect a literal character sequence, returning the rest of the input. -/
def parseLit : List Char → List Char → Option (List Char)
  | [], input => some input
  | _ :: _, [] => none
  | l :: ls, c :: cs => if c = l then parseLit ls cs else none

/-- Parse one serialised follow-up dictionary. -/
def parseFollowUp (input : List Char) : Option (FollowUp × List Char) := do
  let r ← parseLit "\x7b\"term\": \"".data input
  let (t, r) ← parseStringBody r
  let r ← parseLit ", \"question\": \"".data r
  let (q, r) ← parseStringBody r
  let r ← parseLit ", \"definition\": \"".data r
  let (d, r) ← parseStringBody r
  let r ← parseLit "\x7d".data r
  some (⟨⟨t⟩, ⟨q⟩, ⟨d⟩⟩, r)

/-- Parse a non-empty comma-separated item sequence terminated by `]`.
The fuel argument bounds the number of items. -/
def parseItems : Nat → List Char → Option (List FollowUp × List Char)
  | 0, _ => none
  | fuel + 1, input => do
    let (f, rest) ← parseFollowUp input
    match rest with
    | ']' :: r => some ([f], r)
    | ',' :: ' ' :: r => do
      let (fs, r2) ← parseItems fuel r
      some (f :: fs, r2)
    | _ => none

/-- Parse a whole serialised follow-up list: `[]` for the empty list,
otherwise a bracketed item sequence consuming the whole input. -/
def parseFollowUps (input : List Char) : Option (List FollowUp) :=
  match input with
  | [] => none
  | c :: rest =>
    if c = '[' then
      if rest = [']'] then some []
      else
        match parseItems rest.length rest with
        | some (fs, []) => some fs
        | _ => none
    else none

/-- `_deserialize_follow_ups` (identical in both service classes): an
empty column (`None` in the database, or the empty string) deserialises
to the empty list (`if not follow_ups_str: return []`); otherwise the
JSON string is parsed, a malformed string raising an error
(`json.loads` / `FollowUp(**fu)`). -/
def _deserialize_follow_ups (follow_ups_str : Option String) : Except String (List FollowUp) :=
  match follow_ups_str with
  | none => .ok []
  | some s =>
    if s = "" then .ok []
    else
      match parseFollowUps s.data with
      | some fus => .ok fus
      | none => .error "malformed follow_ups JSON"

/-! ### Round-trip of the codec -/

/-! ## Data model and stores

Rows of the two tables (`models.py`); the `follow_ups` column is a text
column (`None` when never written).  Each store is modelled as the list
of its rows; `filter_by(term=..).first()`, `merge`, `delete` and the
`exists` subquery become association-list operations keyed by the
primary-key column `term`.
-/

/-- `models.terminusEntry` (table `terminus`). -/
structure terminusEntry where
  term : String
  definition : String
  follow_ups : Option String
deriving DecidableEq, Repr

/-- `models.CandidateterminusEntry` (table `candidate_terminus`). -/
structure CandidateterminusEntry where
  term : String
  definition : String
  follow_ups : Option String
  status : String
deriving DecidableEq, Repr

section KeyedList

variable {E : Type} (key : E → String)

/-- `session.query(..).filter_by(term=k).first()`. -/
def lookupK (l : List E) (k : String) : Option E := l.find? fun e => key e == k

/-- Replace the first row with the given key. -/
def replaceK : List E → String → E → List E
  | [], _, _ => []
  | x :: xs, k, e => if key x == k then e :: xs else x :: replaceK xs k e

/-- `session.merge` + commit: update the row with the entry's primary
key if present, otherwise insert it. -/
def upsertK (l : List E) (e : E) : List E :=
  if (lookupK key l (key e)).isSome then replaceK key l (key e) e else l ++ [e]

/-- `session.delete` + commit of the first row with the key. -/
def eraseK (l : List E) (k : String) : List E := l.eraseP fun e => key e == k

/-- The `.exists()` subquery. -/
def existsK (l : List E) (k : String) : Bool := l.any fun e => key e == k

theorem key_of_lookupK {l : List E} {k : String} {e : E}
    (h : lookupK key l k = some e) : key e = k := by
  have := List.find?_some h
  simpa using this

theorem mem_of_lookupK {l : List E} {k : String} {e : E}
    (h : lookupK key l k = some e) : e ∈ l :=
  List.mem_of_find?_eq_some h

end KeyedList

/-! ### `terminusService` (the official Term Store)

Every operation addresses the key `term.lower()` (`services/terminus_service.py`).
-/

/-- `terminusService.get`. -/
def terminusService.get (db : List terminusEntry) (term : String) : Option terminusEntry :=
  lookupK (fun e => e.term) db (pyLower term)

/-- `terminusService.get_as_pydantic`: fetch the row, then deserialise
its `follow_ups` column; a malformed column raises. -/
def terminusService.get_as_pydantic (db : List terminusEntry) (term : String) :
    Except String (Option terminusAnswer) :=
  match terminusService.get db term with
  | none => .ok none
  | some e =>
    match _deserialize_follow_ups e.follow_ups with
    | .ok fus => .ok (some ⟨e.term, e.definition, fus⟩)
    | .error msg => .error msg

/-- `terminusService.save`: upsert (`session.merge`) the row keyed
`term.lower()` with the serialised follow-ups. -/
def terminusService.save (db : List terminusEntry) (term definition : String)
    (follow_ups : List FollowUp) : List terminusEntry :=
  upsertK (fun e => e.term) db
    ⟨pyLower term, definition, some (_serialize_follow_ups follow_ups)⟩

/-- `terminusService.delete`: remove the row if present, reporting
whether it existed. -/
def terminusService.delete (db : List terminusEntry) (term : String) :
    Bool × List terminusEntry :=
  match terminusService.get db term with
  | none => (false, db)
  | some _ => (true, eraseK (fun e => e.term) db (pyLower term))

/-- `terminusService.exists`. -/
def terminusService.exists (db : List terminusEntry) (term : String) : Bool :=
  existsK (fun e => e.term) db (pyLower term)

/-! ### `CandidateterminusService` (the Candidate Store)

Same shape plus the `status` column and `reject`
(`services/candidate_terminus_service.py`).
-/

/-- `CandidateterminusService.get`. -/
def CandidateterminusService.get (db : List CandidateterminusEntry) (term : String) :
    Option CandidateterminusEntry :=
  lookupK (fun e => e.term) db (pyLower term)

/-- `CandidateterminusService.get_as_pydantic`. -/
def CandidateterminusService.get_as_pydantic (db : List CandidateterminusEntry)
    (term : String) : Except String (Option CandidateterminusAnswer) :=
  match CandidateterminusService.get db term with
  | none => .ok none
  | some e =>
    match _deserialize_follow_ups e.follow_ups with
    | .ok fus => .ok (some ⟨e.term, e.definition, fus, e.status⟩)
    | .error msg => .error msg

/-- `CandidateterminusService.save` (the `status` argument defaults to
`"under_review"` in the source; every caller in the repository passes it
explicitly, so it is an explicit argument here). -/
def CandidateterminusService.save (db : List CandidateterminusEntry)
    (term definition : String) (follow_ups : List FollowUp) (status : String) :
    List CandidateterminusEntry :=
  upsertK (fun e => e.term) db
    ⟨pyLower term, definition, some (_serialize_follow_ups follow_ups), status⟩

/-- `CandidateterminusService.delete`. -/
def CandidateterminusService.delete (db : List CandidateterminusEntry) (term : String) :
    Bool × List CandidateterminusEntry :=
  match CandidateterminusService.get db term with
  | none => (false, db)
  | some _ => (true, eraseK (fun e => e.term) db (pyLower term))

/-- `CandidateterminusService.exists`. -/
def CandidateterminusService.exists (db : List CandidateterminusEntry) (term : String) :
    Bool :=
  existsK (fun e => e.term) db (pyLower term)

/-- `CandidateterminusService.reject`: if the row exists, overwrite its
status with `rejected: <reason>`. -/
def CandidateterminusService.reject (db : List CandidateterminusEntry)
    (term reason : String) : List CandidateterminusEntry :=
  match CandidateterminusService.get db term with
  | none => db
  | some e =>
    replaceK (fun x => x.term) db (pyLower term)
      { e with status := "rejected: " ++ reason }

/-- The database: the two tables. -/
structure DB where
  terminus : List terminusEntry
  candidate_terminus : List CandidateterminusEntry
deriving DecidableEq, Repr

/-- Well-formedness: primary-key uniqueness of the `term` column, which
the database enforces on both tables. -/
def DB.WF (db : DB) : Prop :=
  (db.terminus.map (fun e => e.term)).Nodup
    ∧ (db.candidate_terminus.map (fun e => e.term)).Nodup

instance (db : DB) : Decidable db.WF := by
  unfold DB.WF
  infer_instance

/-! ## LLM service layer (`services/llm_service.py`)

The structured responses (`schemas.py`) and the outcome of each external
call, modelled as oracle data.  A note on the error behaviour of
`BaseLLMService.generate_response`: on `APIConnectionError` it re-raises;
on any other exception it evaluates `self.response_model()`, and since
every response model used in this repository has required fields, that
construction itself raises a pydantic `ValidationError`, which propagates
out of the `except` block.  Hence `generate_response` never returns
`None` for these services: it either returns a parsed response or
raises.
-/

/-- `schemas.DefinitionValidationResult`.  The `confidence` float is only
logged, never branched on; it is carried as a rational here. -/
structure DefinitionValidationResult where
  is_valid : Bool
  confidence : Rat
  reasoning : String
deriving DecidableEq, Repr

/-- `schemas.TermCritique`. -/
structure TermCritique where
  term : String
  is_relevant : Bool
  reason : String
deriving DecidableEq, Repr

/-- `schemas.ExtractedTerm`. -/
structure ExtractedTerm where
  term : String
deriving DecidableEq, Repr

/-- `schemas.ExtractedTerms`. -/
structure ExtractedTerms where
  terms : List ExtractedTerm
deriving DecidableEq, Repr

/-- Outcome of a `WikipediaService.query` call: an exception, or the
returned summary text (which may be one of the sentinel messages
`Could not find ...` / `An error occurred ...` / `Please provide ...`). -/
inductive WikiOutcome where
  | raise (msg : String)
  | ret (summary : String)
deriving DecidableEq, Repr

/-- Outcome of the LLM call inside
`DefinitionValidationService.validate_definition`:
`APIConnectionError`, some other exception, or a parsed result. -/
inductive ValidationOutcome where
  | transportError (msg : String)
  | serviceError (msg : String)
  | ret (r : DefinitionValidationResult)
deriving DecidableEq, Repr

/-- Outcome of `FUService.generate_followups`: an exception propagating
to the caller (both the transport re-raise and the failing default
construction land here), or a returned value. -/
inductive FollowupOutcome where
  | raise (msg : String)
  | ret (a : Option terminusAnswer)
deriving DecidableEq, Repr

/-- Outcome of the phase-1 extraction call inside
`TermExtractionService.validate_terms`: an exception propagating to the
caller, or a parsed `ExtractedTerms`. -/
inductive ExtractOutcome where
  | raise (msg : String)
  | ret (response : ExtractedTerms)
deriving DecidableEq, Repr

/-- Outcome of one critique call inside
`TermExtractionService._critique_term`. -/
inductive CritiqueOutcome where
  | raise (msg : String)
  | ret (c : TermCritique)
deriving DecidableEq, Repr

/-- `DefinitionValidationService.validate_definition`.  Empty term or
summary: returns `None` without calling the LLM.  The LLM call itself:
a transport error is caught (`except APIConnectionError`) and becomes
`None`; any other failure of the call is caught by the broad
`except Exception` and becomes `None`; otherwise the parsed result is
returned.  This method therefore converts every failure into `None`
rather than raising. -/
def validate_definition (term summary : String) (call : ValidationOutcome) :
    Option DefinitionValidationResult :=
  if term = "" ∨ summary = "" then none
  else
    match call with
    | .transportError _ => none
    | .serviceError _ => none
    | .ret r => some r

/-- `TermExtractionService._critique_term`: ask the critique LLM; any
exception is caught and treated as `False` (fail-closed). -/
def _critique_term (critique : String → CritiqueOutcome) (term : String) : Bool :=
  match critique term with
  | .raise _ => false
  | .ret c => c.is_relevant

/-- The filtering loop of `TermExtractionService.validate_terms`. -/
def validateTermsLoop (critique : String → CritiqueOutcome) : List String → List String
  | [] => []
  | t :: rest =>
    if _critique_term critique t then t :: validateTermsLoop critique rest
    else validateTermsLoop critique rest

/-- `TermExtractionService.validate_terms`: phase-1 extraction (an
exception propagates to the caller), then one independent critique call
per candidate term, keeping the affirmatively-critiqued terms in phase-1
order. -/
def validate_terms (extraction : ExtractOutcome)
    (critique : String → CritiqueOutcome) : Except String (List String) :=
  match extraction with
  | .raise msg => .error msg
  | .ret response => .ok (validateTermsLoop critique (response.terms.map (fun ft => ft.term)))

/-! ## Candidate promotion (`routers/candidate.py`, `validate_candidate`) -/

/-- The observable outcome of `POST /candidates/validate`. -/
inductive ValidateOutcome where
  | ok (a : terminusAnswer)
  | notFound
  | rejectedByCaller
  | deserializeError (msg : String)
  | saveError (msg : String)
  | missingAfterSave
deriving DecidableEq, Repr

/-- `validate_candidate`: look up the candidate (404 if absent); on
disapproval mark it `rejected: Disapproved by user` and return 400; on
approval deserialise its follow-ups, save them to the official store,
delete the candidate row, and return the freshly read official entry
(500 if the readback fails).  `termSaveFail` injects the outcome of the
official-store commit: `some msg` models `terminusService.save` raising,
which propagates to the caller before the candidate row is touched. -/
def validate_candidate (db : DB) (term : String) (approve : Bool)
    (termSaveFail : Option String) : ValidateOutcome × DB :=
  match CandidateterminusService.get db.candidate_terminus term with
  | none => (.notFound, db)
  | some cand =>
    if !approve then
      let cands2 :=
        CandidateterminusService.reject db.candidate_terminus term "Disapproved by user"
      (.rejectedByCaller, { db with candidate_terminus := cands2 })
    else
      match _deserialize_follow_ups cand.follow_ups with
      | .error msg => (.deserializeError msg, db)
      | .ok follow_ups_list =>
        match termSaveFail with
        | some msg => (.saveError msg, db)
        | none =>
          let terminus2 :=
            terminusService.save db.terminus cand.term cand.definition follow_ups_list
          let cands2 := (CandidateterminusService.delete db.candidate_terminus cand.term).2
          let db2 : DB := ⟨terminus2, cands2⟩
          (match terminusService.get_as_pydantic terminus2 cand.term with
           | .ok (some official) => .ok official
           | _ => .missingAfterSave, db2)

/-! ## External-call environment -/

/-- The external collaborators, as functions of the call arguments.
`termSaveFail` / `candSaveFail` inject the outcome of a store commit
(`none` = the save succeeds, `some msg` = it raises `msg`; a failed
commit leaves the table unchanged). -/
structure Env where
  wiki : String → WikiOutcome
  extract : String → ExtractOutcome
  critique : String → CritiqueOutcome
  validation : String → String → ValidationOutcome
  followups : String → String → FollowupOutcome
  termSaveFail : Option String
  candSaveFail : Option String

/-! ## `POST /candidates` (`routers/candidate.py`, `create_candidate`) -/

/-- The observable outcome of `POST /candidates`.  `raised` covers the
unhandled exceptions (main-definition Wikipedia fetch, extraction,
candidate save), which FastAPI surfaces as a 500. -/
inductive CreateOutcome where
  | created (a : CandidateterminusAnswer)
  | conflictOfficial
  | conflictCandidate
  | raised (msg : String)
deriving DecidableEq, Repr

/-- The follow-up loop of `create_candidate`: for each sub-term (the
caller passes the first three), use the stored definition if the
sub-term is in either store, otherwise query Wikipedia, skipping the
sub-term if that query raises. -/
def createFollowUps (db : DB) (wiki : String → WikiOutcome) :
    List String → List FollowUp
  | [] => []
  | t :: rest =>
    match terminusService.get db.terminus t with
    | some e => ⟨t, "What is " ++ t ++ "?", e.definition⟩ :: createFollowUps db wiki rest
    | none =>
      match CandidateterminusService.get db.candidate_terminus t with
      | some e =>
        ⟨t, "What is " ++ t ++ "?", e.definition⟩ :: createFollowUps db wiki rest
      | none =>
        match wiki t with
        | .raise _ => createFollowUps db wiki rest
        | .ret d => ⟨t, "What is " ++ t ++ "?", d⟩ :: createFollowUps db wiki rest

/-- `create_candidate`: 409 if the term is known to either store;
otherwise take the caller's definition, or fetch one from Wikipedia when
the caller's is empty (Python `or` on the falsy empty string); extract
sub-terms from the definition; build at most three follow-ups; save the
candidate with status `pending` and return it. -/
def create_candidate (db : DB) (entry_term entry_definition : String) (env : Env) :
    CreateOutcome × DB :=
  if (terminusService.get db.terminus entry_term).isSome then (.conflictOfficial, db)
  else if (CandidateterminusService.get db.candidate_terminus entry_term).isSome then
    (.conflictCandidate, db)
  else
    match (if entry_definition = "" then env.wiki entry_term
           else .ret entry_definition) with
    | .raise msg => (.raised msg, db)
    | .ret definition =>
      match validate_terms (env.extract definition) env.critique with
      | .error msg => (.raised msg, db)
      | .ok sub_terms =>
        let follow_ups := createFollowUps db env.wiki (sub_terms.take 3)
        match env.candSaveFail with
        | some msg => (.raised msg, db)
        | none =>
          let cands2 := CandidateterminusService.save db.candidate_terminus
            entry_term definition follow_ups "pending"
          let db2 : DB := { db with candidate_terminus := cands2 }
          (match CandidateterminusService.get_as_pydantic cands2 entry_term with
           | .ok (some a) => .created a
           | _ => .raised "response validation error", db2)

/-! ## The background resolution workflow
(`routers/definition.py`, `_fetch_validate_and_store_definition`) -/

/-- One external interaction performed by the workflow (Wikipedia query,
LLM call, or store write attempt). -/
inductive ExtCall where
  | wikiQuery (term : String)
  | llmValidate (term summary : String)
  | llmFollowups (term summary : String)
  | writeCandidate (term : String)
  | writeTerminus (term : String)
deriving DecidableEq, Repr

/-- Status truncation for the `rejected_llm` branch:
`status_reason[:252] + "..."` when longer than 255 characters. -/
def statusTrunc (s : String) : String :=
  if 255 < pyLen s then pyTake s 252 ++ "..." else s

/-- A guarded candidate save inside the workflow: the broad
`except Exception` at the end of the task catches a raising save, so a
failed commit leaves the database unchanged. -/
def candSaveStep (db : DB) (term definition : String) (fus : List FollowUp)
    (status : String) (fail : Option String) : DB :=
  match fail with
  | some _ => db
  | none =>
    { db with candidate_terminus :=
        CandidateterminusService.save db.candidate_terminus term definition fus status }

/-- `_fetch_validate_and_store_definition`, returning the resulting
database together with the external interactions performed.

Branches, in source order: normalise the term (`strip` then `lower`);
short-circuit when either store already has it; fetch the Wikipedia
summary (an exception saves a `wikipedia_error: ...` candidate, the
`Could not find` / `An error occurred` sentinels save a
`wikipedia_failed: ...` candidate, and `Please provide` stops without
saving); validate via `validate_definition` (which itself traps both
transport and other failures into `None`, so the only reachable failure
status here is `validation_failed: LLM returned no result` - the
`validation_error:` branch of the task would require the service to
raise, which it does not); on a valid verdict generate follow-ups (any
failure or empty answer degrades to the empty list) and save to the
official store, falling back to a `save_to_official_error: ...`
candidate save when that commit raises; on an invalid verdict save a
truncated `rejected_llm: ...` candidate. -/
def _fetch_validate_and_store_definition (env : Env) (term : String) (db : DB) :
    DB × List ExtCall :=
  let t := pyLower (pyStrip term)
  if terminusService.exists db.terminus t then (db, [])
  else if CandidateterminusService.exists db.candidate_terminus t then (db, [])
  else
    match env.wiki t with
    | .raise msg =>
      (candSaveStep db t ("Error fetching: " ++ msg) []
         ("wikipedia_error: " ++ pyTake msg 200) env.candSaveFail,
       [.wikiQuery t, .writeCandidate t])
    | .ret candidate_summary =>
      if pyStartsWith candidate_summary "Could not find"
          || pyStartsWith candidate_summary "An error occurred" then
        (candSaveStep db t candidate_summary []
           ("wikipedia_failed: " ++ pyTake candidate_summary 200) env.candSaveFail,
         [.wikiQuery t, .writeCandidate t])
      else if pyStartsWith candidate_summary "Please provide" then (db, [.wikiQuery t])
      else
        let vcalls : List ExtCall :=
          if t = "" ∨ candidate_summary = "" then []
          else [.llmValidate t candidate_summary]
        match validate_definition t candidate_summary
            (env.validation t candidate_summary) with
        | none =>
          (candSaveStep db t candidate_summary []
             "validation_failed: LLM returned no result" env.candSaveFail,
           .wikiQuery t :: vcalls ++ [.writeCandidate t])
        | some validation_result =>
          if validation_result.is_valid then
            let follow_ups_to_save : List FollowUp :=
              match env.followups t candidate_summary with
              | .raise _ => []
              | .ret none => []
              | .ret (some llm_answer) =>
                if llm_answer.follow_ups.isEmpty then [] else llm_answer.follow_ups
            match env.termSaveFail with
            | none =>
              let terminus2 :=
                terminusService.save db.terminus t candidate_summary follow_ups_to_save
              ({ db with terminus := terminus2 },
               .wikiQuery t :: vcalls
                 ++ [.llmFollowups t candidate_summary, .writeTerminus t])
            | some msg =>
              (candSaveStep db t candidate_summary follow_ups_to_save
                 ("save_to_official_error: " ++ pyTake msg 200) env.candSaveFail,
               .wikiQuery t :: vcalls
                 ++ [.llmFollowups t candidate_summary, .writeTerminus t,
                     .writeCandidate t])
          else
            (candSaveStep db t candidate_summary []
               (statusTrunc ("rejected_llm: " ++ validation_result.reasoning))
               env.candSaveFail,
             .wikiQuery t :: vcalls ++ [.writeCandidate t])

/-! ## `POST /terms/precompute` (`routers/terms.py`, `precompute_terms`) -/

/-- The observable outcome of `POST /terms/precompute`; `raised` models
an unhandled exception aborting the request midway (saves already
committed remain). -/
inductive PrecomputeOutcome where
  | done (added_terms : List String)
  | raised (msg : String)
deriving DecidableEq, Repr

/-- The follow-up builder of `precompute_terms`: the given sub-terms
(the caller passes the first three), skipping one equal to the main term
(case-insensitively); the per-sub-term Wikipedia query is NOT guarded
here, so an exception aborts the whole request. -/
def precomputeFollowUps (env : Env) (term : String) :
    List String → Except String (List FollowUp)
  | [] => .ok []
  | sub :: rest =>
    if pyLower sub = pyLower term then precomputeFollowUps env term rest
    else
      match env.wiki sub with
      | .raise msg => .error msg
      | .ret d => do
        let fus ← precomputeFollowUps env term rest
        .ok (⟨sub, "What is " ++ sub ++ "?", d⟩ :: fus)

/-- The per-term loop of `precompute_terms`, threading the database and
accumulating `added_terms`. -/
def precomputeLoop (env : Env) :
    List String → DB → List String → PrecomputeOutcome × DB
  | [], db, added => (.done added.reverse, db)
  | term :: rest, db, added =>
    if (terminusService.get db.terminus term).isSome
        || (CandidateterminusService.get db.candidate_terminus term).isSome then
      precomputeLoop env rest db added
    else
      match env.wiki term with
      | .raise msg => (.raised msg, db)
      | .ret definition =>
        match validate_terms (env.extract definition) env.critique with
        | .error msg => (.raised msg, db)
        | .ok related_terms =>
          match precomputeFollowUps env term (related_terms.take 3) with
          | .error msg => (.raised msg, db)
          | .ok follow_ups =>
            match env.candSaveFail with
            | some msg => (.raised msg, db)
            | none =>
              let cands2 := CandidateterminusService.save db.candidate_terminus
                term definition follow_ups "pending"
              let db2 : DB := { db with candidate_terminus := cands2 }
              precomputeLoop env rest db2 (term :: added)

/-- `precompute_terms`: extract and critique terms from the text, then
for each validated term not already known fetch a definition, build at
most three follow-ups, and save a pending candidate. -/
def precompute_terms (db : DB) (text : String) (env : Env) : PrecomputeOutcome × DB :=
  match validate_terms (env.extract text) env.critique with
  | .error msg => (.raised msg, db)
  | .ok validated_terms => precomputeLoop env validated_terms db []


/-! ## Concrete states and environments used by witnesses and
counterexamples -/

/-- A Term Store state for the C10 witness and the C3 counterexample. -/
def dbC3 : List terminusEntry := [⟨"a", "defa", none⟩]

/-- A Candidate Store state with an empty-string `follow_ups` column. -/
def cdbC10 : List CandidateterminusEntry := [⟨"b", "defb", some "", "pending"⟩]

/-- The empty database. -/
def dbEmpty : DB := ⟨[], []⟩

/-- A candidate store whose key carries trailing whitespace - reachable
via `POST /candidates` with term `"foo "`, whose save lower-cases but
does not trim. -/
def dbC2 : DB := ⟨[], [⟨"foo ", "a definition", none, "pending"⟩]⟩

/-- An environment whose Wikipedia query raises. -/
def envC2 : Env :=
  ⟨fun _ => .raise "connection error", fun _ => .ret ⟨[]⟩,
   fun t => .ret ⟨t, true, "ok"⟩, fun _ _ => .ret ⟨true, 1, "fine"⟩,
   fun _ _ => .ret none, none, none⟩

/-- A database already holding the candidate `"gdp"`. -/
def dbC2W : DB := ⟨[], [⟨"gdp", "a definition", none, "pending"⟩]⟩

/-- The environment of the C6 counterexample: Wikipedia succeeds, the
validation LLM call fails with a transport (connection) error. -/
def envC6 : Env :=
  ⟨fun _ => .ret "Gross domestic product is a measure of production.",
   fun _ => .ret ⟨[]⟩, fun t => .ret ⟨t, true, "ok"⟩,
   fun _ _ => .transportError "connection failed",
   fun _ _ => .ret none, none, none⟩

/-- The failure modes of the follow-up generation step as observed by
the workflow: an exception, a `None` result, or an answer with an empty
follow-up list. -/
def enrichmentFailed : FollowupOutcome → Bool
  | .raise _ => true
  | .ret none => true
  | .ret (some a) => a.follow_ups.isEmpty

/-- The environment of the C7 witness: validation passes, follow-up
generation raises. -/
def envC7 : Env :=
  ⟨fun _ => .ret "Gross domestic product is a measure of production.",
   fun _ => .ret ⟨[]⟩, fun t => .ret ⟨t, true, "ok"⟩,
   fun _ _ => .ret ⟨true, 1, "fine"⟩,
   fun _ _ => .raise "followup generation failed", none, none⟩

/-- Four follow-ups, one more than the claimed cap. -/
def fu4 : List FollowUp :=
  [⟨"a", "qa", "da"⟩, ⟨"b", "qb", "db"⟩, ⟨"c", "qc", "dc"⟩, ⟨"d", "qd", "dd"⟩]

/-- The environment of the C4 counterexample: validation passes and the
follow-up LLM returns four follow-ups. -/
def envC4 : Env :=
  ⟨fun _ => .ret "Gross domestic product is a measure of production.",
   fun _ => .ret ⟨[]⟩, fun t => .ret ⟨t, true, "ok"⟩,
   fun _ _ => .ret ⟨true, 1, "fine"⟩,
   fun _ _ => .ret (some ⟨"gdp", "x", fu4⟩), none, none⟩

/-- A database holding one candidate with one follow-up, for the C1 and
C5 witnesses. -/
def dbC1 : DB :=
  ⟨[], [⟨"gdp", "a definition", some (_serialize_follow_ups [⟨"x", "qx", "dx"⟩]),
    "pending"⟩]⟩

/-! # Proof development

Helper lemmas about the embedded definitions, followed by the claim
theorems.
-/

theorem Char_toLower_toLower (c : Char) : c.toLower.toLower = c.toLower := by
  unfold Char.toLower
  by_cases h : c.toNat ≥ 65 ∧ c.toNat ≤ 90
  · rw [if_pos h]
    have hv : Nat.isValidChar (c.toNat + 32) := Or.inl (by omega)
    have hval : (Char.ofNat (c.toNat + 32)).toNat = c.toNat + 32 := by
      rw [Char.ofNat, dif_pos hv]
      simp [Char.ofNatAux, Char.toNat]
      rfl
    rw [if_neg (by omega)]
  · rw [if_neg h, if_neg h]

theorem pyLower_idem (s : String) : pyLower (pyLower s) = pyLower s := by
  have h : pyLowerChar ∘ pyLowerChar = pyLowerChar := funext Char_toLower_toLower
  simp [pyLower, h]

/-! ## Round-trip of the follow-up codec -/

theorem parseStringBody_quote (rest : List Char) :
    parseStringBody ('"' :: rest) = some ([], rest) := by
  rw [parseStringBody.eq_def]
  simp

theorem parseStringBody_esc (e : Char) (rest : List Char) :
    parseStringBody ('\\' :: e :: rest)
      = (unescapeChar e).bind fun d =>
          (parseStringBody rest).bind fun p => some (d :: p.1, p.2) := by
  rw [parseStringBody.eq_def]
  simp [bind]

theorem parseStringBody_other (c : Char) (rest : List Char)
    (h1 : ¬ c = '"') (h2 : ¬ c = '\\') :
    parseStringBody (c :: rest)
      = (parseStringBody rest).bind fun p => some (c :: p.1, p.2) := by
  rw [parseStringBody.eq_def]
  simp [h1, h2, bind]

theorem parseStringBody_escape (s rest : List Char) :
    parseStringBody (escapeString s ++ '"' :: rest) = some (s, rest) := by
  induction s with
  | nil => simpa [escapeString] using parseStringBody_quote rest
  | cons c cs ih =>
    have hstep : escapeString (c :: cs) ++ '"' :: rest
        = escapeChar c ++ (escapeString cs ++ '"' :: rest) := by
      simp [escapeString]
    rw [hstep]
    by_cases h1 : c = '"'
    · subst h1
      rw [show escapeChar '"' = ['\\', '"'] from rfl]
      simp only [List.cons_append, List.nil_append]
      rw [parseStringBody_esc]
      simp [unescapeChar, ih]
    · by_cases h2 : c = '\\'
      · subst h2
        rw [show escapeChar '\\' = ['\\', '\\'] from rfl]
        simp only [List.cons_append, List.nil_append]
        rw [parseStringBody_esc]
        simp [unescapeChar, ih]
      · by_cases h3 : c = '\n'
        · subst h3
          rw [show escapeChar '\n' = ['\\', 'n'] from rfl]
          simp only [List.cons_append, List.nil_append]
          rw [parseStringBody_esc]
          simp [unescapeChar, ih]
        · by_cases h4 : c = '\t'
          · subst h4
            rw [show escapeChar '\t' = ['\\', 't'] from rfl]
            simp only [List.cons_append, List.nil_append]
            rw [parseStringBody_esc]
            simp [unescapeChar, ih]
          · by_cases h5 : c = '\r'
            · subst h5
              rw [show escapeChar '\r' = ['\\', 'r'] from rfl]
              simp only [List.cons_append, List.nil_append]
              rw [parseStringBody_esc]
              simp [unescapeChar, ih]
            · rw [show escapeChar c = [c] from by
                simp [escapeChar, h1, h2, h3, h4, h5]]
              simp only [List.cons_append, List.nil_append]
              rw [parseStringBody_other c _ h1 h2]
              simp [ih]

theorem parseLit_append (lit rest : List Char) :
    parseLit lit (lit ++ rest) = some rest := by
  induction lit with
  | nil => simp [parseLit]
  | cons l ls ih => simp [parseLit, ih]

theorem parseFollowUp_serialize (f : FollowUp) (rest : List Char) :
    parseFollowUp (serializeFollowUp f ++ rest) = some (f, rest) := by
  have e1 : ("\", \"question\": \"").data = '"' :: (", \"question\": \"").data := rfl
  have e2 : ("\", \"definition\": \"").data = '"' :: (", \"definition\": \"").data := rfl
  have e3 : ("\"\x7d").data = '"' :: ("\x7d").data := rfl
  simp only [serializeFollowUp, e1, e2, e3, List.append_assoc, List.cons_append]
  simp [parseFollowUp, parseLit_append, parseStringBody_escape, bind, parseLit]

theorem serializeFollowUp_length (f : FollowUp) : 1 ≤ (serializeFollowUp f).length := by
  simp [serializeFollowUp]

theorem serializeItems_length (l : List FollowUp) : l.length ≤ (serializeItems l).length := by
  induction l with
  | nil => simp [serializeItems]
  | cons f fs ih =>
    cases fs with
    | nil =>
      have h1 := serializeFollowUp_length f
      simpa [serializeItems] using h1
    | cons g gs =>
      have h1 := serializeFollowUp_length f
      rw [show serializeItems (f :: g :: gs)
          = serializeFollowUp f ++ ", ".data ++ serializeItems (g :: gs) from rfl]
      simp only [List.length_append, List.length_cons] at *
      omega

theorem parseItems_serialize (l : List FollowUp) (hl : l ≠ []) :
    ∀ (fuel : Nat), l.length ≤ fuel →
      ∀ rest, parseItems fuel (serializeItems l ++ ']' :: rest) = some (l, rest) := by
  induction l with
  | nil => exact absurd rfl hl
  | cons f fs ih =>
    intro fuel hf rest
    match fuel, hf with
    | fuel + 1, hf =>
      cases fs with
      | nil =>
        simp [serializeItems, parseItems, parseFollowUp_serialize, bind]
      | cons g gs =>
        have hsplit : serializeItems (f :: g :: gs) ++ ']' :: rest
            = serializeFollowUp f
              ++ ',' :: ' ' :: (serializeItems (g :: gs) ++ ']' :: rest) := by
          rw [show serializeItems (f :: g :: gs)
              = serializeFollowUp f ++ ", ".data ++ serializeItems (g :: gs) from rfl]
          simp
        rw [hsplit]
        have hrec := ih (by simp) fuel (by simpa using hf) rest
        simp [parseItems, parseFollowUp_serialize, bind, hrec]

theorem parseFollowUps_serialize (l : List FollowUp) :
    parseFollowUps (_serialize_follow_ups l).data = some l := by
  match l with
  | [] => rfl
  | f :: fs =>
    have hdata : (_serialize_follow_ups (f :: fs)).data
        = '[' :: (serializeItems (f :: fs) ++ [']']) := by
      simp [_serialize_follow_ups]
    rw [hdata]
    have hlen : (f :: fs).length ≤ (serializeItems (f :: fs) ++ [']']).length := by
      have h1 := serializeItems_length (f :: fs)
      simp only [List.length_append, List.length_cons] at *
      omega
    have hitems := parseItems_serialize (f :: fs) (by simp)
      (serializeItems (f :: fs) ++ [']']).length hlen []
    have hne : ¬ (serializeItems (f :: fs) ++ [']'] = [']']) := by
      intro hcontra
      have h1 := serializeFollowUp_length f
      have h2 := serializeItems_length (f :: fs)
      have h3 := congrArg List.length hcontra
      simp only [List.length_append, List.length_cons] at *
      omega
    rw [parseFollowUps.eq_def]
    simp only [if_neg hne, hitems]
    simp

theorem serialize_ne_empty (l : List FollowUp) : _serialize_follow_ups l ≠ "" := by
  intro h
  have h2 := congrArg (fun s => s.data.length) h
  simp [_serialize_follow_ups] at h2

/-- Deserialisation is a left inverse of serialisation: reading back a
saved `follow_ups` column reconstructs the same ordered list. -/
theorem deserialize_serialize (l : List FollowUp) :
    _deserialize_follow_ups (some (_serialize_follow_ups l)) = .ok l := by
  simp [_deserialize_follow_ups, serialize_ne_empty l, parseFollowUps_serialize l]

/-! ## Keyed-list store lemmas -/

section KeyedListLemmas

variable {E : Type} (key : E → String)

theorem existsK_eq_isSome (l : List E) (k : String) :
    existsK key l k = (lookupK key l k).isSome := by
  induction l with
  | nil => rfl
  | cons x xs ih =>
    cases hx : (key x == k) with
    | true =>
      simp [existsK, lookupK, List.find?_cons_of_pos (p := fun e => key e == k) _ hx, hx]
    | false =>
      have hx2 : ¬ ((key x == k) = true) := by simp [hx]
      simp only [existsK, List.any_cons, hx, Bool.false_or, lookupK,
        List.find?_cons_of_neg (p := fun e => key e == k) _ hx2]
      exact ih

theorem lookupK_replaceK_self {l : List E} {k : String} (e : E)
    (hk : key e = k) (h : (lookupK key l k).isSome) :
    lookupK key (replaceK key l k e) k = some e := by
  induction l with
  | nil => simp [lookupK] at h
  | cons x xs ih =>
    cases hx : (key x == k) with
    | true =>
      rw [show replaceK key (x :: xs) k e = e :: xs from by rw [replaceK, if_pos hx]]
      unfold lookupK
      exact List.find?_cons_of_pos (p := fun a => key a == k) _ (by simp [hk])
    | false =>
      have hx2 : ¬ ((key x == k) = true) := by simp [hx]
      rw [show replaceK key (x :: xs) k e = x :: replaceK key xs k e from by
        rw [replaceK, if_neg hx2]]
      have h2 : (lookupK key xs k).isSome := by
        simpa [lookupK, List.find?_cons_of_neg (p := fun a => key a == k) _ hx2] using h
      unfold lookupK at *
      rw [List.find?_cons_of_neg (p := fun a => key a == k) _ hx2]
      exact ih h2

theorem lookupK_replaceK_ne {l : List E} {k k2 : String} (e : E)
    (hne : ¬ k2 = k) (hk : key e = k) :
    lookupK key (replaceK key l k e) k2 = lookupK key l k2 := by
  induction l with
  | nil => rfl
  | cons x xs ih =>
    have hek2 : ¬ ((key e == k2) = true) := by
      simp [hk]
      exact fun hc => hne hc.symm
    cases hx : (key x == k) with
    | true =>
      have hxk : key x = k := by simpa using hx
      have hxk2 : ¬ ((key x == k2) = true) := by
        simp [hxk]
        exact fun hc => hne hc.symm
      rw [show replaceK key (x :: xs) k e = e :: xs from by rw [replaceK, if_pos hx]]
      unfold lookupK
      rw [List.find?_cons_of_neg (p := fun a => key a == k2) _ hek2,
        List.find?_cons_of_neg (p := fun a => key a == k2) _ hxk2]
    | false =>
      have hx2 : ¬ ((key x == k) = true) := by simp [hx]
      rw [show replaceK key (x :: xs) k e = x :: replaceK key xs k e from by
        rw [replaceK, if_neg hx2]]
      unfold lookupK at *
      cases hx3 : (key x == k2) with
      | true =>
        rw [List.find?_cons_of_pos (p := fun a => key a == k2) _ hx3,
          List.find?_cons_of_pos (p := fun a => key a == k2) _ hx3]
      | false =>
        have hx4 : ¬ ((key x == k2) = true) := by simp [hx3]
        rw [List.find?_cons_of_neg (p := fun a => key a == k2) _ hx4,
          List.find?_cons_of_neg (p := fun a => key a == k2) _ hx4]
        exact ih

theorem lookupK_upsertK_self (l : List E) (e : E) :
    lookupK key (upsertK key l e) (key e) = some e := by
  unfold upsertK
  by_cases h : (lookupK key l (key e)).isSome
  · rw [if_pos h]
    exact lookupK_replaceK_self key e rfl h
  · rw [if_neg h]
    have hnone : lookupK key l (key e) = none := by
      cases hc : lookupK key l (key e) with
      | none => rfl
      | some _ => rw [hc] at h; simp at h
    unfold lookupK at *
    rw [List.find?_append, hnone]
    simp

theorem lookupK_upsertK_ne (l : List E) (e : E) (k : String) (hne : ¬ k = key e) :
    lookupK key (upsertK key l e) k = lookupK key l k := by
  unfold upsertK
  by_cases h : (lookupK key l (key e)).isSome
  · rw [if_pos h]
    exact lookupK_replaceK_ne key e hne rfl
  · rw [if_neg h]
    unfold lookupK
    rw [List.find?_append]
    cases hc : List.find? (fun x => key x == k) l with
    | some _ => simp
    | none =>
      simp only [Option.none_or]
      have hek : ¬ ((key e == k) = true) := by
        simp
        exact fun hx => hne hx.symm
      rw [List.find?_cons_of_neg (p := fun a => key a == k) _ hek]
      rfl

theorem lookupK_eraseK_ne (l : List E) (k k2 : String) (hne : ¬ k2 = k) :
    lookupK key (eraseK key l k) k2 = lookupK key l k2 := by
  induction l with
  | nil => rfl
  | cons x xs ih =>
    cases hx : (key x == k) with
    | true =>
      have hxk : key x = k := by simpa using hx
      have hxk2 : ¬ ((key x == k2) = true) := by
        simp [hxk]
        exact fun hc => hne hc.symm
      rw [show eraseK key (x :: xs) k = xs from by
        unfold eraseK; exact List.eraseP_cons_of_pos (p := fun e => key e == k) hx]
      unfold lookupK
      rw [List.find?_cons_of_neg (p := fun a => key a == k2) _ hxk2]
    | false =>
      have hx2 : ¬ ((key x == k) = true) := by simp [hx]
      rw [show eraseK key (x :: xs) k = x :: eraseK key xs k from by
        unfold eraseK; exact List.eraseP_cons_of_neg (p := fun e => key e == k) hx2]
      unfold lookupK at *
      cases hx3 : (key x == k2) with
      | true =>
        rw [List.find?_cons_of_pos (p := fun a => key a == k2) _ hx3,
          List.find?_cons_of_pos (p := fun a => key a == k2) _ hx3]
      | false =>
        have hx4 : ¬ ((key x == k2) = true) := by simp [hx3]
        rw [List.find?_cons_of_neg (p := fun a => key a == k2) _ hx4,
          List.find?_cons_of_neg (p := fun a => key a == k2) _ hx4]
        exact ih

theorem lookupK_eraseK_self (l : List E) (k : String)
    (hnd : (l.map key).Nodup) : lookupK key (eraseK key l k) k = none := by
  induction l with
  | nil => rfl
  | cons x xs ih =>
    have hnd2 : (xs.map key).Nodup := (List.nodup_cons.mp hnd).2
    have hnx : key x ∉ xs.map key := (List.nodup_cons.mp hnd).1
    cases hx : (key x == k) with
    | true =>
      have hxk : key x = k := by simpa using hx
      rw [show eraseK key (x :: xs) k = xs from by
        unfold eraseK; exact List.eraseP_cons_of_pos (p := fun e => key e == k) hx]
      subst hxk
      unfold lookupK
      cases hc : List.find? (fun e => key e == key x) xs with
      | none => rfl
      | some e =>
        have hke : key e = key x := by simpa using List.find?_some hc
        have hmem : e ∈ xs := List.mem_of_find?_eq_some hc
        exact absurd (hke ▸ List.mem_map_of_mem key hmem) hnx
    | false =>
      have hx2 : ¬ ((key x == k) = true) := by simp [hx]
      rw [show eraseK key (x :: xs) k = x :: eraseK key xs k from by
        unfold eraseK; exact List.eraseP_cons_of_neg (p := fun e => key e == k) hx2]
      unfold lookupK at *
      rw [List.find?_cons_of_neg (p := fun a => key a == k) _ hx2]
      exact ih hnd2

theorem mem_replaceK {l : List E} {k : String} {e x : E}
    (h : x ∈ replaceK key l k e) : x ∈ l ∨ x = e := by
  induction l with
  | nil => simp [replaceK] at h
  | cons y ys ih =>
    by_cases hy : (key y == k) = true
    · rw [show replaceK key (y :: ys) k e = e :: ys from by
        rw [replaceK, if_pos hy]] at h
      rcases List.mem_cons.mp h with h1 | h1
      · exact Or.inr h1
      · exact Or.inl (List.mem_cons_of_mem y h1)
    · rw [show replaceK key (y :: ys) k e = y :: replaceK key ys k e from by
        rw [replaceK, if_neg hy]] at h
      rcases List.mem_cons.mp h with h1 | h1
      · exact Or.inl (h1 ▸ List.mem_cons_self y ys)
      · rcases ih h1 with h2 | h2
        · exact Or.inl (List.mem_cons_of_mem y h2)
        · exact Or.inr h2

theorem mem_upsertK {l : List E} {e x : E} (h : x ∈ upsertK key l e) :
    x ∈ l ∨ x = e := by
  unfold upsertK at h
  by_cases hc : (lookupK key l (key e)).isSome
  · rw [if_pos hc] at h
    exact mem_replaceK key h
  · rw [if_neg hc] at h
    rcases List.mem_append.mp h with h1 | h1
    · exact Or.inl h1
    · exact Or.inr (by simpa using h1)

theorem mem_eraseK {l : List E} {k : String} {x : E}
    (h : x ∈ eraseK key l k) : x ∈ l :=
  List.mem_of_mem_eraseP h

end KeyedListLemmas

/-! ## Service-level helper lemmas -/

theorem terminusService.get_save_of_lower_eq (db : List terminusEntry)
    {t T : String} (h : pyLower T = pyLower t) (d : String) (fus : List FollowUp) :
    terminusService.get (terminusService.save db t d fus) T
      = some ⟨pyLower t, d, some (_serialize_follow_ups fus)⟩ := by
  unfold terminusService.get terminusService.save
  rw [h]
  exact lookupK_upsertK_self _ db _

theorem terminusService.get_as_pydantic_save_of_lower_eq (db : List terminusEntry)
    {t T : String} (h : pyLower T = pyLower t) (d : String) (fus : List FollowUp) :
    terminusService.get_as_pydantic (terminusService.save db t d fus) T
      = .ok (some ⟨pyLower t, d, fus⟩) := by
  simp only [terminusService.get_as_pydantic,
    terminusService.get_save_of_lower_eq db h d fus, deserialize_serialize]

theorem CandidateterminusService.cand_get_save_of_lower_eq
    (db : List CandidateterminusEntry) {t T : String} (h : pyLower T = pyLower t)
    (d : String) (fus : List FollowUp) (st : String) :
    CandidateterminusService.get (CandidateterminusService.save db t d fus st) T
      = some ⟨pyLower t, d, some (_serialize_follow_ups fus), st⟩ := by
  unfold CandidateterminusService.get CandidateterminusService.save
  rw [h]
  exact lookupK_upsertK_self _ db _

theorem CandidateterminusService.cand_get_as_pydantic_save_of_lower_eq
    (db : List CandidateterminusEntry) {t T : String} (h : pyLower T = pyLower t)
    (d : String) (fus : List FollowUp) (st : String) :
    CandidateterminusService.get_as_pydantic (CandidateterminusService.save db t d fus st) T
      = .ok (some ⟨pyLower t, d, fus, st⟩) := by
  simp only [CandidateterminusService.get_as_pydantic,
    CandidateterminusService.cand_get_save_of_lower_eq db h d fus st, deserialize_serialize]

theorem validateTermsLoop_eq_filter (critique : String → CritiqueOutcome)
    (l : List String) :
    validateTermsLoop critique l = l.filter (_critique_term critique) := by
  induction l with
  | nil => rfl
  | cons t rest ih =>
    by_cases h : _critique_term critique t
    · simp [validateTermsLoop, List.filter_cons, h, ih]
    · simp only [Bool.not_eq_true] at h
      simp [validateTermsLoop, List.filter_cons, h, ih]

/-! ## Claim theorems -/

/-- C8.  Extraction order and fail-closed critique: when the phase-1
extraction succeeds with `response`, `validate_terms` returns (without
error) exactly the phase-1 terms whose critique call succeeds and
reports relevant, as a `filter` of the phase-1 list - hence in phase-1
order and without deduplication; and the per-term keep-decision
`_critique_term` is true exactly when the critique call returned a
result with `is_relevant`, a raising critique call counting as not
relevant rather than propagating. -/
theorem claim_C8_extraction_order_fail_closed (response : ExtractedTerms)
    (critique : String → CritiqueOutcome) :
    validate_terms (.ret response) critique
      = .ok ((response.terms.map (fun ft => ft.term)).filter (_critique_term critique))
    ∧ (∀ t, _critique_term critique t = true
        ↔ ∃ c, critique t = .ret c ∧ c.is_relevant = true) := by
  constructor
  · exact congrArg Except.ok (validateTermsLoop_eq_filter critique _)
  · intro t
    unfold _critique_term
    cases hc : critique t with
    | raise msg => simp
    | ret c =>
      simp only [CritiqueOutcome.ret.injEq]
      constructor
      · intro h
        exact ⟨c, rfl, h⟩
      · rintro ⟨c2, hc2, hrel⟩
        exact hc2 ▸ hrel

/-- C10.  Empty follow-up field tolerated on read: for both stores,
deserialising a `None` or empty-string `follow_ups` column yields the
empty list rather than an error, and reading such an entry through
`get_as_pydantic` yields the entry with `follow_ups = []`. -/
theorem claim_C10_empty_followups_tolerated (db : List terminusEntry)
    (cdb : List CandidateterminusEntry) (t : String) (e : terminusEntry)
    (ce : CandidateterminusEntry) :
    _deserialize_follow_ups none = .ok []
    ∧ _deserialize_follow_ups (some "") = .ok []
    ∧ (terminusService.get db t = some e →
        (e.follow_ups = none ∨ e.follow_ups = some "") →
        terminusService.get_as_pydantic db t = .ok (some ⟨e.term, e.definition, []⟩))
    ∧ (CandidateterminusService.get cdb t = some ce →
        (ce.follow_ups = none ∨ ce.follow_ups = some "") →
        CandidateterminusService.get_as_pydantic cdb t
          = .ok (some ⟨ce.term, ce.definition, [], ce.status⟩)) := by
  refine ⟨rfl, rfl, ?_, ?_⟩
  · intro hget hcol
    rcases hcol with h | h <;>
      simp [terminusService.get_as_pydantic, hget, h, _deserialize_follow_ups]
  · intro hget hcol
    rcases hcol with h | h <;>
      simp [CandidateterminusService.get_as_pydantic, hget, h, _deserialize_follow_ups]



/-- Witness for C10 at a concrete store state. -/
theorem claim_C10_empty_followups_tolerated_witness :
    terminusService.get_as_pydantic dbC3 "a" = .ok (some ⟨"a", "defa", []⟩)
    ∧ CandidateterminusService.get_as_pydantic cdbC10 "b"
        = .ok (some ⟨"b", "defb", [], "pending"⟩) :=
  ⟨(claim_C10_empty_followups_tolerated dbC3 cdbC10 "a" ⟨"a", "defa", none⟩
      ⟨"b", "defb", some "", "pending"⟩).2.2.1 (by decide) (Or.inl rfl),
   (claim_C10_empty_followups_tolerated dbC3 cdbC10 "b" ⟨"a", "defa", none⟩
      ⟨"b", "defb", some "", "pending"⟩).2.2.2 (by decide) (Or.inr rfl)⟩

/-- C3 counterexample.  The claim says every store operation normalises
its key by trimming AND lowercasing, so that an operation applied to
`" a"` behaves as applied to `"a"`.  In the code the services apply
`term.lower()` only: on a store holding the key `"a"`, `get " a"` misses
while `get` on the trimmed-and-lowercased key hits. -/
theorem claim_C3_counterexample :
    terminusService.get dbC3 " a" = none
    ∧ terminusService.get dbC3 (pyLower (pyStrip " a")) = some ⟨"a", "defa", none⟩
    ∧ pyStrip " a" = "a" := by
  refine ⟨by decide, by decide, by decide⟩

/-- C3 amended.  Every Term Store and Candidate Store operation
normalises the term key identically by lowercasing only (no trimming):
each operation applied to `t` behaves the same as applied to
`t.lower()`. -/
theorem claim_C3_amended_lowercase_only (db : List terminusEntry)
    (cdb : List CandidateterminusEntry) (t d st reason : String)
    (fus : List FollowUp) :
    terminusService.get db t = terminusService.get db (pyLower t)
    ∧ terminusService.get_as_pydantic db t
        = terminusService.get_as_pydantic db (pyLower t)
    ∧ terminusService.save db t d fus = terminusService.save db (pyLower t) d fus
    ∧ terminusService.delete db t = terminusService.delete db (pyLower t)
    ∧ terminusService.exists db t = terminusService.exists db (pyLower t)
    ∧ CandidateterminusService.get cdb t = CandidateterminusService.get cdb (pyLower t)
    ∧ CandidateterminusService.get_as_pydantic cdb t
        = CandidateterminusService.get_as_pydantic cdb (pyLower t)
    ∧ CandidateterminusService.save cdb t d fus st
        = CandidateterminusService.save cdb (pyLower t) d fus st
    ∧ CandidateterminusService.delete cdb t
        = CandidateterminusService.delete cdb (pyLower t)
    ∧ CandidateterminusService.exists cdb t
        = CandidateterminusService.exists cdb (pyLower t)
    ∧ CandidateterminusService.reject cdb t reason
        = CandidateterminusService.reject cdb (pyLower t) reason := by
  refine ⟨?_, ?_, ?_, ?_, ?_, ?_, ?_, ?_, ?_, ?_, ?_⟩ <;>
    simp [terminusService.get, terminusService.get_as_pydantic, terminusService.save,
      terminusService.delete, terminusService.exists, CandidateterminusService.get,
      CandidateterminusService.get_as_pydantic, CandidateterminusService.save,
      CandidateterminusService.delete, CandidateterminusService.exists,
      CandidateterminusService.reject, pyLower_idem]

/-- C9.  Case-insensitive store keys: two terms with the same
lower-casing are interchangeable for every store operation, and every
key persisted by `save` is `term.lower()` - in particular a fixed point
of lower-casing. -/
theorem claim_C9_case_insensitive_keys (db : List terminusEntry)
    (cdb : List CandidateterminusEntry) (t1 t2 d st reason : String)
    (fus : List FollowUp) (h : pyLower t1 = pyLower t2) :
    terminusService.get db t1 = terminusService.get db t2
    ∧ terminusService.get_as_pydantic db t1 = terminusService.get_as_pydantic db t2
    ∧ terminusService.save db t1 d fus = terminusService.save db t2 d fus
    ∧ terminusService.delete db t1 = terminusService.delete db t2
    ∧ terminusService.exists db t1 = terminusService.exists db t2
    ∧ CandidateterminusService.get cdb t1 = CandidateterminusService.get cdb t2
    ∧ CandidateterminusService.get_as_pydantic cdb t1
        = CandidateterminusService.get_as_pydantic cdb t2
    ∧ CandidateterminusService.save cdb t1 d fus st
        = CandidateterminusService.save cdb t2 d fus st
    ∧ CandidateterminusService.delete cdb t1 = CandidateterminusService.delete cdb t2
    ∧ CandidateterminusService.exists cdb t1 = CandidateterminusService.exists cdb t2
    ∧ CandidateterminusService.reject cdb t1 reason
        = CandidateterminusService.reject cdb t2 reason
    ∧ (∀ e ∈ terminusService.save db t1 d fus,
        e ∈ db ∨ (e.term = pyLower t1 ∧ pyLower e.term = e.term))
    ∧ (∀ e ∈ CandidateterminusService.save cdb t1 d fus st,
        e ∈ cdb ∨ (e.term = pyLower t1 ∧ pyLower e.term = e.term)) := by
  refine ⟨?_, ?_, ?_, ?_, ?_, ?_, ?_, ?_, ?_, ?_, ?_, ?_, ?_⟩
  · unfold terminusService.get; rw [h]
  · unfold terminusService.get_as_pydantic terminusService.get; rw [h]
  · unfold terminusService.save; rw [h]
  · unfold terminusService.delete terminusService.get; rw [h]
  · unfold terminusService.exists; rw [h]
  · unfold CandidateterminusService.get; rw [h]
  · unfold CandidateterminusService.get_as_pydantic CandidateterminusService.get; rw [h]
  · unfold CandidateterminusService.save; rw [h]
  · unfold CandidateterminusService.delete CandidateterminusService.get; rw [h]
  · unfold CandidateterminusService.exists; rw [h]
  · unfold CandidateterminusService.reject CandidateterminusService.get; rw [h]
  · intro e he
    unfold terminusService.save at he
    rcases mem_upsertK _ he with h1 | h1
    · exact Or.inl h1
    · subst h1
      exact Or.inr ⟨rfl, pyLower_idem t1⟩
  · intro e he
    unfold CandidateterminusService.save at he
    rcases mem_upsertK _ he with h1 | h1
    · exact Or.inl h1
    · subst h1
      exact Or.inr ⟨rfl, pyLower_idem t1⟩

/-- Witness for C9 at concrete casing variants. -/
theorem claim_C9_case_insensitive_keys_witness :
    pyLower "GdP" = pyLower "gdp"
    ∧ terminusService.get dbC3 "GdP" = terminusService.get dbC3 "gdp" :=
  ⟨by decide,
   (claim_C9_case_insensitive_keys dbC3 cdbC10 "GdP" "gdp" "d" "pending" "r" []
      (by decide)).1⟩

theorem validate_definition_transportError (t s m : String) :
    validate_definition t s (.transportError m) = none := by
  unfold validate_definition
  by_cases h : t = "" ∨ s = "" <;> simp [h]




/-- C2 counterexample.  The term `"foo "` is present in the Candidate
Store by the store's own `exists` operation (the stored key is
`"foo "`: saves lower-case but do not trim, so such keys are reachable
via `POST /candidates`).  Yet invoking the resolution workflow for
`"foo "` normalises to `"foo"`, misses both pre-checks, and performs
external calls and a store write - not zero of each as claimed. -/
theorem claim_C2_counterexample :
    CandidateterminusService.exists dbC2.candidate_terminus "foo " = true
    ∧ _fetch_validate_and_store_definition envC2 "foo " dbC2 ≠ (dbC2, []) := by
  constructor
  · decide
  · decide

/-- C2 amended.  Idempotent short-circuit for normalised presence: for
every term whose strip-and-lowercase normalisation is a key of either
store, the resolution workflow returns with the stores unchanged and an
empty list of external interactions (no Wikipedia query, no LLM call,
no store write). -/
theorem claim_C2_amended_idempotent_shortcircuit (env : Env) (term : String) (db : DB)
    (h : terminusService.exists db.terminus (pyLower (pyStrip term)) = true
       ∨ CandidateterminusService.exists db.candidate_terminus
           (pyLower (pyStrip term)) = true) :
    _fetch_validate_and_store_definition env term db = (db, []) := by
  unfold _fetch_validate_and_store_definition
  rcases h with h | h
  · simp [h]
  · cases hT : terminusService.exists db.terminus (pyLower (pyStrip term)) <;>
      simp [h, hT]


/-- Witness for the amended C2: a term already present (under its
normalised key) short-circuits. -/
theorem claim_C2_amended_idempotent_shortcircuit_witness :
    _fetch_validate_and_store_definition envC2 " GDP" dbC2W = (dbC2W, []) :=
  claim_C2_amended_idempotent_shortcircuit envC2 " GDP" dbC2W (Or.inr (by decide))


/-- C6 counterexample.  On a transport failure of the validation call
the workflow writes a candidate whose status is the literal
`validation_failed: LLM returned no result` - it does NOT begin with
`validation_error:` as claimed, because
`DefinitionValidationService.validate_definition` catches
`APIConnectionError` and returns `None`, so the task's
`validation_error:` branch (which would require the service to raise)
is not reached. -/
theorem claim_C6_counterexample :
    (CandidateterminusService.get
        (_fetch_validate_and_store_definition envC6 "gdp" dbEmpty).1.candidate_terminus
        "gdp").map (fun e => e.status)
      = some "validation_failed: LLM returned no result"
    ∧ pyStartsWith "validation_failed: LLM returned no result" "validation_error:"
        = false := by
  constructor
  · decide
  · decide

/-- C6 amended.  Validation transport-failure status: if the LLM
validation call fails with a connection error, the workflow writes a
Candidate Store entry for the term whose status is
`validation_failed: LLM returned no result` (the service converts the
connection error to a null result, so the `validation_error:` status is
not produced) and stops, leaving the Term Store untouched. -/
theorem claim_C6_amended_transport_failure_status (env : Env)
    (term summary msg : String) (db : DB)
    (h1 : terminusService.exists db.terminus (pyLower (pyStrip term)) = false)
    (h2 : CandidateterminusService.exists db.candidate_terminus
        (pyLower (pyStrip term)) = false)
    (hwiki : env.wiki (pyLower (pyStrip term)) = .ret summary)
    (hs1 : pyStartsWith summary "Could not find" = false)
    (hs2 : pyStartsWith summary "An error occurred" = false)
    (hs3 : pyStartsWith summary "Please provide" = false)
    (hval : env.validation (pyLower (pyStrip term)) summary = .transportError msg)
    (hcand : env.candSaveFail = none) :
    (_fetch_validate_and_store_definition env term db).1.terminus = db.terminus
    ∧ CandidateterminusService.get
        (_fetch_validate_and_store_definition env term db).1.candidate_terminus
        (pyLower (pyStrip term))
      = some ⟨pyLower (pyStrip term), summary, some (_serialize_follow_ups []),
          "validation_failed: LLM returned no result"⟩ := by
  unfold _fetch_validate_and_store_definition
  simp only [h1, h2, hwiki, hs1, hs2, hs3, hval, hcand, Bool.false_eq_true,
    Bool.or_self, if_false, validate_definition_transportError, candSaveStep]
  refine ⟨by trivial, ?_⟩
  rw [CandidateterminusService.cand_get_save_of_lower_eq _ rfl]
  rw [pyLower_idem]

/-- Witness for the amended C6 at a concrete run. -/
theorem claim_C6_amended_transport_failure_status_witness :
    (_fetch_validate_and_store_definition envC6 "gdp" dbEmpty).1.terminus = []
    ∧ CandidateterminusService.get
        (_fetch_validate_and_store_definition envC6 "gdp" dbEmpty).1.candidate_terminus
        "gdp"
      = some ⟨"gdp", "Gross domestic product is a measure of production.",
          some (_serialize_follow_ups []),
          "validation_failed: LLM returned no result"⟩ := by
  have h := claim_C6_amended_transport_failure_status envC6 "gdp"
    "Gross domestic product is a measure of production." "connection failed" dbEmpty
    (by decide) (by decide) (by decide) (by decide) (by decide) (by decide)
    (by decide) (by decide)
  exact ⟨h.1, by rw [show pyLower (pyStrip "gdp") = "gdp" from by decide] at h; exact h.2⟩


/-- C7.  Enrichment failure does not discard a validated definition:
when the pre-checks miss, Wikipedia returns a non-sentinel summary, the
validation step yields a passing verdict, and the follow-up generation
step fails in any of its three modes (exception, `None`, empty list),
the workflow still writes the Term Store entry with the validated
definition and an empty follow-up list (provided that write commits). -/
theorem claim_C7_enrichment_failure_keeps_definition (env : Env)
    (term summary : String) (vr : DefinitionValidationResult) (db : DB)
    (h1 : terminusService.exists db.terminus (pyLower (pyStrip term)) = false)
    (h2 : CandidateterminusService.exists db.candidate_terminus
        (pyLower (pyStrip term)) = false)
    (hwiki : env.wiki (pyLower (pyStrip term)) = .ret summary)
    (hs1 : pyStartsWith summary "Could not find" = false)
    (hs2 : pyStartsWith summary "An error occurred" = false)
    (hs3 : pyStartsWith summary "Please provide" = false)
    (hval : validate_definition (pyLower (pyStrip term)) summary
        (env.validation (pyLower (pyStrip term)) summary) = some vr)
    (hvalid : vr.is_valid = true)
    (hfail : enrichmentFailed (env.followups (pyLower (pyStrip term)) summary) = true)
    (hsave : env.termSaveFail = none) :
    terminusService.get_as_pydantic
        (_fetch_validate_and_store_definition env term db).1.terminus
        (pyLower (pyStrip term))
      = .ok (some ⟨pyLower (pyStrip term), summary, []⟩)
    ∧ ExtCall.writeTerminus (pyLower (pyStrip term))
        ∈ (_fetch_validate_and_store_definition env term db).2 := by
  have hfus :
      (match env.followups (pyLower (pyStrip term)) summary with
        | .raise _ => ([] : List FollowUp)
        | .ret none => []
        | .ret (some llm_answer) =>
          if llm_answer.follow_ups.isEmpty then [] else llm_answer.follow_ups) = [] := by
    unfold enrichmentFailed at hfail
    cases hf : env.followups (pyLower (pyStrip term)) summary with
    | raise m => rfl
    | ret o =>
      cases o with
      | none => rfl
      | some a =>
        rw [hf] at hfail
        simp at hfail
        simp [hfail]
  unfold _fetch_validate_and_store_definition
  simp only [h1, h2, hwiki, hs1, hs2, hs3, hval, hvalid, hsave, Bool.false_eq_true,
    Bool.or_self, if_false, if_true, hfus]
  constructor
  · rw [terminusService.get_as_pydantic_save_of_lower_eq _ rfl]
    rw [pyLower_idem]
  · simp


/-- Witness for C7 at a concrete run. -/
theorem claim_C7_enrichment_failure_keeps_definition_witness :
    terminusService.get_as_pydantic
        (_fetch_validate_and_store_definition envC7 "gdp" dbEmpty).1.terminus "gdp"
      = .ok (some ⟨"gdp", "Gross domestic product is a measure of production.", []⟩)
    ∧ ExtCall.writeTerminus "gdp"
        ∈ (_fetch_validate_and_store_definition envC7 "gdp" dbEmpty).2 := by
  have h := claim_C7_enrichment_failure_keeps_definition envC7 "gdp"
    "Gross domestic product is a measure of production." ⟨true, 1, "fine"⟩ dbEmpty
    (by decide) (by decide) (by decide) (by decide) (by decide) (by decide)
    (by decide) rfl rfl rfl
  rw [show pyLower (pyStrip "gdp") = "gdp" from by decide] at h
  exact h

theorem pyStartsWith_append (a b : String) : pyStartsWith (a ++ b) a = true := by
  simp [pyStartsWith, List.isPrefixOf_iff_prefix]

theorem createFollowUps_length (db : DB) (wiki : String → WikiOutcome)
    (l : List String) : (createFollowUps db wiki l).length ≤ l.length := by
  induction l with
  | nil => simp [createFollowUps]
  | cons t rest ih =>
    unfold createFollowUps
    cases terminusService.get db.terminus t with
    | some e => simpa using Nat.succ_le_succ ih
    | none =>
      cases CandidateterminusService.get db.candidate_terminus t with
      | some e => simpa using Nat.succ_le_succ ih
      | none =>
        cases wiki t with
        | raise m => exact Nat.le_succ_of_le ih
        | ret d2 => simpa using Nat.succ_le_succ ih

theorem precomputeFollowUps_length (env : Env) (term : String) (l : List String) :
    ∀ fus, precomputeFollowUps env term l = .ok fus → fus.length ≤ l.length := by
  induction l with
  | nil =>
    intro fus h
    unfold precomputeFollowUps at h
    cases h
    simp
  | cons sub rest ih =>
    intro fus h
    unfold precomputeFollowUps at h
    by_cases hskip : pyLower sub = pyLower term
    · rw [if_pos hskip] at h
      exact Nat.le_succ_of_le (ih fus h)
    · rw [if_neg hskip] at h
      cases hw : env.wiki sub with
      | raise m => rw [hw] at h; cases h
      | ret d2 =>
        rw [hw] at h
        cases hrec : precomputeFollowUps env term rest with
        | error m => rw [hrec] at h; cases h
        | ok fus2 =>
          rw [hrec] at h
          simp only [bind, Except.bind] at h
          cases h
          simpa using Nat.succ_le_succ (ih fus2 hrec)

theorem mem_candidate_save_le3 {cdb : List CandidateterminusEntry} {t d st : String}
    {fus : List FollowUp} (hlen : fus.length ≤ 3) {e : CandidateterminusEntry}
    (he : e ∈ CandidateterminusService.save cdb t d fus st) :
    e ∈ cdb ∨ ∃ fus2, _deserialize_follow_ups e.follow_ups = .ok fus2
      ∧ fus2.length ≤ 3 := by
  rcases mem_upsertK _ he with h1 | h1
  · exact Or.inl h1
  · subst h1
    exact Or.inr ⟨fus, deserialize_serialize fus, hlen⟩

theorem mem_candSaveStep {db : DB} {t d st : String} {fus : List FollowUp}
    {fail : Option String} {e : CandidateterminusEntry}
    (he : e ∈ (candSaveStep db t d fus st fail).candidate_terminus) :
    e ∈ db.candidate_terminus
      ∨ e = ⟨pyLower t, d, some (_serialize_follow_ups fus), st⟩ := by
  unfold candSaveStep at he
  cases fail with
  | some m => exact Or.inl he
  | none => exact mem_upsertK _ he

theorem precomputeLoop_cands (env : Env) (terms : List String) :
    ∀ (db : DB) (added : List String) (e : CandidateterminusEntry),
      e ∈ (precomputeLoop env terms db added).2.candidate_terminus →
      e ∈ db.candidate_terminus
        ∨ ∃ fus, _deserialize_follow_ups e.follow_ups = .ok fus ∧ fus.length ≤ 3 := by
  induction terms with
  | nil =>
    intro db added e he
    exact Or.inl he
  | cons term rest ih =>
    intro db added e he
    unfold precomputeLoop at he
    split at he
    · exact ih db added e he
    · split at he
      · exact Or.inl he
      · split at he
        · exact Or.inl he
        · split at he
          · exact Or.inl he
          · split at he
            · exact Or.inl he
            · rename_i hmiss x2 defn heq3 x1 related heq2 x0 fus hfus tsf heq0
              rcases ih _ _ e he with h1 | h1
              · rcases mem_upsertK _ h1 with h2 | h2
                · exact Or.inl h2
                · subst h2
                  refine Or.inr ⟨fus, deserialize_serialize fus, ?_⟩
                  have hle := precomputeFollowUps_length env term
                    (related.take 3) fus hfus
                  have hle3 : (related.take 3).length ≤ 3 := by
                    simp [List.length_take]
                  omega
              · exact Or.inr h1



/-- C4 counterexample.  The resolution workflow's save to the Term
Store applies no cap: with an enrichment result of four follow-ups, the
persisted `follow_ups` list has length four.  (The `[:3]` slices exist
only in `create_candidate` and `precompute_terms`; the workflow saves
`llm_answer.follow_ups` in full.) -/
theorem claim_C4_counterexample :
    terminusService.get_as_pydantic
        (_fetch_validate_and_store_definition envC4 "gdp" dbEmpty).1.terminus "gdp"
      = .ok (some ⟨"gdp", "Gross domestic product is a measure of production.", fu4⟩)
    ∧ 3 < fu4.length := by
  constructor
  · rfl
  · decide

/-- C4 amended.  Follow-up cap, where it actually holds: every Candidate
Store row written by `POST /candidates` or `POST /terms/precompute`
carries at most three follow-ups, and so does every Candidate Store row
written by the resolution workflow except its fallback save after a
failed official write (status `save_to_official_error: ...`), which -
like the workflow's Term Store save itself - persists the full
enrichment output without a cap. -/
theorem claim_C4_amended_followup_cap (db : DB) (env : Env)
    (entry_term entry_definition text term : String) (e : CandidateterminusEntry) :
    (e ∈ (create_candidate db entry_term entry_definition env).2.candidate_terminus →
      e ∈ db.candidate_terminus
        ∨ ∃ fus, _deserialize_follow_ups e.follow_ups = .ok fus ∧ fus.length ≤ 3)
    ∧ (e ∈ (precompute_terms db text env).2.candidate_terminus →
      e ∈ db.candidate_terminus
        ∨ ∃ fus, _deserialize_follow_ups e.follow_ups = .ok fus ∧ fus.length ≤ 3)
    ∧ (e ∈ (_fetch_validate_and_store_definition env term db).1.candidate_terminus →
      e ∈ db.candidate_terminus
        ∨ (∃ fus, _deserialize_follow_ups e.follow_ups = .ok fus ∧ fus.length ≤ 3)
        ∨ pyStartsWith e.status "save_to_official_error: " = true) := by
  refine ⟨?_, ?_, ?_⟩
  · intro he
    unfold create_candidate at he
    split at he
    · exact Or.inl he
    · split at he
      · exact Or.inl he
      · split at he
        · exact Or.inl he
        · split at he
          · exact Or.inl he
          · rename_i defn heq1 x1 sub_terms heq2
            split at he
            · exact Or.inl he
            · have he2 : e ∈ CandidateterminusService.save db.candidate_terminus
                  entry_term defn (createFollowUps db env.wiki (sub_terms.take 3))
                  "pending" := he
              refine mem_candidate_save_le3 ?_ he2
              have h1 := createFollowUps_length db env.wiki (sub_terms.take 3)
              have h2 : (sub_terms.take 3).length ≤ 3 := by
                simp [List.length_take]
              omega
  · intro he
    unfold precompute_terms at he
    split at he
    · exact Or.inl he
    · exact precomputeLoop_cands env _ db [] e he
  · intro he
    unfold _fetch_validate_and_store_definition at he
    cases hT : terminusService.exists db.terminus (pyLower (pyStrip term)) with
    | true =>
      simp only [hT, if_true] at he
      exact Or.inl he
    | false =>
      simp only [hT, Bool.false_eq_true, if_false] at he
      cases hC : CandidateterminusService.exists db.candidate_terminus
          (pyLower (pyStrip term)) with
      | true =>
        simp only [hC, if_true] at he
        exact Or.inl he
      | false =>
        simp only [hC, Bool.false_eq_true, if_false] at he
        cases hw : env.wiki (pyLower (pyStrip term)) with
        | raise msg =>
          simp only [hw] at he
          rcases mem_candSaveStep he with h1 | h1
          · exact Or.inl h1
          · subst h1
            exact Or.inr (Or.inl ⟨[], deserialize_serialize [], by simp⟩)
        | ret summary =>
          simp only [hw] at he
          cases hs : (pyStartsWith summary "Could not find"
              || pyStartsWith summary "An error occurred") with
          | true =>
            simp only [hs, if_true] at he
            rcases mem_candSaveStep he with h1 | h1
            · exact Or.inl h1
            · subst h1
              exact Or.inr (Or.inl ⟨[], deserialize_serialize [], by simp⟩)
          | false =>
            simp only [hs, Bool.false_eq_true, if_false] at he
            cases hp : pyStartsWith summary "Please provide" with
            | true =>
              simp only [hp, if_true] at he
              exact Or.inl he
            | false =>
              simp only [hp, Bool.false_eq_true, if_false] at he
              cases hv : validate_definition (pyLower (pyStrip term)) summary
                  (env.validation (pyLower (pyStrip term)) summary) with
              | none =>
                simp only [hv] at he
                rcases mem_candSaveStep he with h1 | h1
                · exact Or.inl h1
                · subst h1
                  exact Or.inr (Or.inl ⟨[], deserialize_serialize [], by simp⟩)
              | some vr =>
                simp only [hv] at he
                cases hval : vr.is_valid with
                | false =>
                  simp only [hval, Bool.false_eq_true, if_false] at he
                  rcases mem_candSaveStep he with h1 | h1
                  · exact Or.inl h1
                  · subst h1
                    exact Or.inr (Or.inl ⟨[], deserialize_serialize [], by simp⟩)
                | true =>
                  simp only [hval, if_true] at he
                  cases hts : env.termSaveFail with
                  | none =>
                    simp only [hts] at he
                    exact Or.inl he
                  | some m =>
                    simp only [hts] at he
                    rcases mem_candSaveStep he with h1 | h1
                    · exact Or.inl h1
                    · subst h1
                      exact Or.inr (Or.inr (pyStartsWith_append _ _))

/-- Witness for the amended C4: the `"rate"` row written by a concrete
`POST /candidates` run deserialises to at most three follow-ups. -/
theorem claim_C4_amended_followup_cap_witness :
    ∃ fus, _deserialize_follow_ups
        (⟨"rate", "a definition", some (_serialize_follow_ups []),
          "pending"⟩ : CandidateterminusEntry).follow_ups = .ok fus
      ∧ fus.length ≤ 3 := by
  have h := (claim_C4_amended_followup_cap dbEmpty envC4 "rate" "a definition"
    "text" "gdp" ⟨"rate", "a definition", some (_serialize_follow_ups []), "pending"⟩).1
    (by decide)
  rcases h with h1 | h1
  · exact absurd h1 (by decide)
  · exact h1

/-- C1.  Candidate promotion round-trip: approving a Candidate Store
entry with term `T`, definition `D` and follow-ups `F` returns the new
official entry with the same `D` and `F`, leaves a Term Store entry for
`T` with the same `D` and `F`, and deletes the Candidate Store entry
for `T`.  (`db.WF` is the tables' primary-key uniqueness.) -/
theorem claim_C1_promotion_roundtrip (db : DB) (T : String)
    (cand : CandidateterminusEntry) (F : List FollowUp) (hwf : db.WF)
    (hget : CandidateterminusService.get db.candidate_terminus T = some cand)
    (hdes : _deserialize_follow_ups cand.follow_ups = .ok F) :
    (validate_candidate db T true none).1 = .ok ⟨cand.term, cand.definition, F⟩
    ∧ terminusService.get_as_pydantic
        (validate_candidate db T true none).2.terminus T
      = .ok (some ⟨cand.term, cand.definition, F⟩)
    ∧ CandidateterminusService.get
        (validate_candidate db T true none).2.candidate_terminus T = none := by
  have hkey : cand.term = pyLower T := key_of_lookupK _ hget
  have hTt : pyLower T = pyLower cand.term := by
    rw [hkey, pyLower_idem]
  have hlow : pyLower cand.term = cand.term := by
    rw [hkey, pyLower_idem]
  have hoffc : terminusService.get_as_pydantic
      (terminusService.save db.terminus cand.term cand.definition F) cand.term
      = .ok (some ⟨pyLower cand.term, cand.definition, F⟩) :=
    terminusService.get_as_pydantic_save_of_lower_eq db.terminus rfl cand.definition F
  have hoffT : terminusService.get_as_pydantic
      (terminusService.save db.terminus cand.term cand.definition F) T
      = .ok (some ⟨pyLower cand.term, cand.definition, F⟩) :=
    terminusService.get_as_pydantic_save_of_lower_eq db.terminus hTt cand.definition F
  have hgetc : CandidateterminusService.get db.candidate_terminus cand.term
      = some cand := by
    unfold CandidateterminusService.get at *
    rw [hlow, hkey]
    exact hget
  have hred : validate_candidate db T true none
      = ((match terminusService.get_as_pydantic
            (terminusService.save db.terminus cand.term cand.definition F)
            cand.term with
          | .ok (some official) => .ok official
          | _ => .missingAfterSave),
         ⟨terminusService.save db.terminus cand.term cand.definition F,
          (CandidateterminusService.delete db.candidate_terminus cand.term).2⟩) := by
    simp only [validate_candidate, hget, hdes, Bool.not_true, Bool.false_eq_true,
      if_false]
  have hdel : (CandidateterminusService.delete db.candidate_terminus cand.term).2
      = eraseK (fun e => e.term) db.candidate_terminus (pyLower cand.term) := by
    unfold CandidateterminusService.delete
    simp only [hgetc]
  refine ⟨?_, ?_, ?_⟩
  · rw [hred]
    simp only [hoffc, hlow]
  · rw [hred]
    simp only [hoffT, hlow]
  · rw [hred]
    simp only [hdel]
    unfold CandidateterminusService.get
    rw [show pyLower cand.term = pyLower T from hTt.symm] at *
    exact lookupK_eraseK_self _ db.candidate_terminus (pyLower T) hwf.2


/-- Witness for C1 at a concrete promotion. -/
theorem claim_C1_promotion_roundtrip_witness :
    (validate_candidate dbC1 "GDP" true none).1
      = .ok ⟨"gdp", "a definition", [⟨"x", "qx", "dx"⟩]⟩
    ∧ terminusService.get_as_pydantic
        (validate_candidate dbC1 "GDP" true none).2.terminus "GDP"
      = .ok (some ⟨"gdp", "a definition", [⟨"x", "qx", "dx"⟩]⟩)
    ∧ CandidateterminusService.get
        (validate_candidate dbC1 "GDP" true none).2.candidate_terminus "GDP"
      = none :=
  claim_C1_promotion_roundtrip dbC1 "GDP"
    ⟨"gdp", "a definition", some (_serialize_follow_ups [⟨"x", "qx", "dx"⟩]),
      "pending"⟩
    [⟨"x", "qx", "dx"⟩] (by decide) (by decide)
    (deserialize_serialize [⟨"x", "qx", "dx"⟩])

/-- C5.  Promotion failure atomicity: if the Term Store write raises
during approval, the endpoint propagates `saveError` and the database -
in particular the candidate row - is unchanged; and across every
outcome of `validate_candidate`, if the candidate row for `T` is gone
afterwards then an official Term Store row for `T` exists. -/
theorem claim_C5_promotion_failure_atomicity (db : DB) (T msg : String)
    (cand : CandidateterminusEntry) (F : List FollowUp)
    (hget : CandidateterminusService.get db.candidate_terminus T = some cand)
    (hdes : _deserialize_follow_ups cand.follow_ups = .ok F) :
    validate_candidate db T true (some msg) = (.saveError msg, db)
    ∧ ∀ (approve : Bool) (saveFail : Option String),
        CandidateterminusService.exists
          (validate_candidate db T approve saveFail).2.candidate_terminus T = false →
        terminusService.exists
          (validate_candidate db T approve saveFail).2.terminus T = true := by
  have hkey : cand.term = pyLower T := key_of_lookupK _ hget
  have hTt : pyLower T = pyLower cand.term := by
    rw [hkey, pyLower_idem]
  constructor
  · simp only [validate_candidate, hget, hdes, Bool.not_true, Bool.false_eq_true,
      if_false]
  · intro approve saveFail h2
    cases approve with
    | false =>
      exfalso
      revert h2
      simp only [validate_candidate, hget, Bool.not_false, if_true]
      unfold CandidateterminusService.reject
      simp only [hget]
      unfold CandidateterminusService.exists
      rw [existsK_eq_isSome]
      rw [lookupK_replaceK_self (fun e : CandidateterminusEntry => e.term)
        { cand with status := "rejected: " ++ "Disapproved by user" }
        (by simpa using hkey)
        (by rw [← existsK_eq_isSome]
            unfold CandidateterminusService.get at hget
            unfold existsK
            rw [List.any_eq_true]
            exact ⟨cand, mem_of_lookupK _ hget, by simpa using hkey⟩)]
      simp
    | true =>
      cases saveFail with
      | some m =>
        exfalso
        revert h2
        simp only [validate_candidate, hget, hdes, Bool.not_true, Bool.false_eq_true,
          if_false]
        unfold CandidateterminusService.exists
        rw [existsK_eq_isSome]
        unfold CandidateterminusService.get at hget
        rw [hget]
        simp
      | none =>
        simp only [validate_candidate, hget, hdes, Bool.not_true, Bool.false_eq_true,
          if_false]
        unfold terminusService.exists terminusService.save
        rw [existsK_eq_isSome, hTt]
        rw [lookupK_upsertK_self]
        rfl

/-- Witness for C5: the failure half at a concrete failing save, and
the no-partial-state half at a concrete successful promotion. -/
theorem claim_C5_promotion_failure_atomicity_witness :
    validate_candidate dbC1 "GDP" true (some "disk full")
      = (.saveError "disk full", dbC1)
    ∧ terminusService.exists
        (validate_candidate dbC1 "GDP" true none).2.terminus "GDP" = true :=
  ⟨(claim_C5_promotion_failure_atomicity dbC1 "GDP" "disk full"
      ⟨"gdp", "a definition", some (_serialize_follow_ups [⟨"x", "qx", "dx"⟩]),
        "pending"⟩
      [⟨"x", "qx", "dx"⟩] (by decide)
      (deserialize_serialize [⟨"x", "qx", "dx"⟩])).1,
   (claim_C5_promotion_failure_atomicity dbC1 "GDP" "disk full"
      ⟨"gdp", "a definition", some (_serialize_follow_ups [⟨"x", "qx", "dx"⟩]),
        "pending"⟩
      [⟨"x", "qx", "dx"⟩] (by decide)
      (deserialize_serialize [⟨"x", "qx", "dx"⟩])).2 true none (by decide)⟩
